import Mathlib

/-!
Verification development for the evoke event-sourcing library.

The Go source is shallowly embedded as pure Lean functions:

* `registry.go` — the event type registry (`RegisterEvent`,
  `EventRegistry.UnmarshalEvent`).  Go's `encoding/json` is modelled for
  flat integer-field structs: a payload is an association list of field
  names to values; `json.Unmarshal` first validates the bytes, then
  requires a pointer target, then overwrites exactly the fields present
  in the payload, leaving the others at the target's current values.
  The closure `func() Event { return ctor }` produced by `RegisterEvent`
  returns the captured registered value; for a pointer registration the
  pointed-to struct is therefore one shared mutable cell, modelled by
  threading the registry (which stores each entry's current prototype
  contents) through `UnmarshalEvent`.
* `simplestore.go` — the in-memory store (`appendEvents`, `Record`,
  `LoadStream`), state = event log, per-aggregate stream map, and the
  `nextSequence` counter.  The Go `int64` counter starts at 1 and only
  increments; it is modelled as an unbounded `Int` (overflow after
  2^63 successful appends is out of scope).
* `filestore` (src/unnamed/part_000) — the sqlite-backed store.  The
  events table is a list of rows; `integer primary key autoincrement`
  is modelled by a `nextSequence` counter; each `insert ... returning *`
  is one independently committed statement (no surrounding transaction),
  exactly as in the source.
* `evoke.go` — `Service.Insert` with its synchronous in-transaction
  handlers (`runEventHandlers`) and post-commit saga handlers
  (`xrunEventHandlers`) over the events and saga_instances tables.
* `aggregatehandler.go` — `AggregateHandler.Handle`: rehydrate by
  folding the stream, decide, record.
-/

namespace Evoke

/-- Typed failures of the core operations (the Go code returns `error`
values built with `errors.New` / `fmt.Errorf`; the distinct construction
sites are modelled as distinct constructors). -/
inductive Err
  | noEvents
  | unregisteredType (name : String)
  | malformedPayload
  | invalidUnmarshalTarget
  | marshalFailure
  | handlerFailed (msg : String)
  | publishFailed (msg : String)
  | commandFailed (msg : String)
  | missingDestination (col : String)
deriving DecidableEq, Repr

/-- A well-formed JSON object, restricted to flat integer fields (the
shape of payloads this development considers). -/
structure JsonObj where
  fields : List (String × Int)
deriving DecidableEq, Repr

/-- Serialized bytes: either valid JSON for an object, or malformed data
that `json.Unmarshal`'s validity check rejects. -/
inductive Bytes
  | wellFormed (obj : JsonObj)
  | malformed
deriving DecidableEq, Repr

/-- A concrete Go event value: its struct type's derived name, its
exported fields (in declaration order) with their current values, and
whether the shape is serializable by `json.Marshal` (false models field
kinds such as channels or funcs that make `Marshal` return an error). -/
structure EventVal where
  typeName : String
  fields : List (String × Int)
  marshalable : Bool
deriving DecidableEq, Repr

/-- Association-list lookup (Go map read). -/
def assocLookup {α : Type} : List (String × α) → String → Option α
  | [], _ => none
  | (k, v) :: rest, t => if k = t then some v else assocLookup rest t

/-- Association-list insert/overwrite (Go map write). -/
def assocInsert {α : Type} : List (String × α) → String → α → List (String × α)
  | [], k, v => [(k, v)]
  | (k', v') :: rest, k, v =>
    if k' = k then (k, v) :: rest else (k', v') :: assocInsert rest k v

/-- `TypeName` of evoke.go: the reflected struct name (pointers are
dereferenced before taking the name, so a value and a pointer to it
yield the same name). -/
def TypeName (e : EventVal) : String := e.typeName

/-- `json.Marshal` on an event value: emits every exported field, or
fails when the shape is not serializable. -/
def jsonMarshal (e : EventVal) : Except Err Bytes :=
  if e.marshalable then .ok (.wellFormed ⟨e.fields⟩) else .error .marshalFailure

/-- `json.Unmarshal` writing into an existing struct: each field of the
target takes the payload's value when the payload mentions it and keeps
its current value otherwise (unknown payload keys are ignored). -/
def jsonUnmarshalInto (target : List (String × Int)) (obj : JsonObj) :
    List (String × Int) :=
  target.map (fun nv => (nv.1, (assocLookup obj.fields nv.1).getD nv.2))

/-- One registry entry: whether the event was registered through a
pointer, and the current contents of the instance the registered
constructor closure returns (`func() Event { return ctor }` — for a
pointer registration this is one shared struct whose contents evolve
with every decode). -/
structure RegEntry where
  isPtr : Bool
  proto : EventVal
deriving DecidableEq, Repr

/-- The `EventRegistry.registry` map of registry.go. -/
abbrev Registry := List (String × RegEntry)

/-- `RegisterEvent` of registry.go: key the entry by the value's derived
type name (last registration wins, as for a Go map assignment). -/
def RegisterEvent (reg : Registry) (isPtr : Bool) (ctor : EventVal) : Registry :=
  assocInsert reg (TypeName ctor) ⟨isPtr, ctor⟩

/-- `EventRegistry.UnmarshalEvent` of registry.go.  Mirrors the source
order of checks: constructor lookup first (unknown name fails), then
`json.Unmarshal(data, e)` — which validates the bytes, then requires a
pointer target, then merges the payload into the shared prototype —
and finally the reflective dereference that returns the underlying
value rather than the pointer.  Returns the updated registry (the
shared prototype's new contents) together with the result. -/
def UnmarshalEvent (reg : Registry) (eventType : String) (data : Bytes) :
    Registry × Except Err EventVal :=
  match assocLookup reg eventType with
  | none => (reg, .error (Err.unregisteredType eventType))
  | some entry =>
    match data with
    | .malformed => (reg, .error Err.malformedPayload)
    | .wellFormed obj =>
      if entry.isPtr then
        let decoded : EventVal :=
          { entry.proto with fields := jsonUnmarshalInto entry.proto.fields obj }
        (assocInsert reg eventType { entry with proto := decoded }, .ok decoded)
      else
        (reg, .error Err.invalidUnmarshalTarget)

/-- The `RecordedEvent` struct of evoke.go (timestamps are commented out
in the source and not modelled).  simplestore leaves `EventType` at its
zero value; the filestore fills it from the row. -/
structure SRecordedEvent where
  sequence : Int
  aggregateId : String
  eventType : String
  event : EventVal
deriving DecidableEq, Repr

/-- A publisher registered on a store (`RecordedEventPublisher.Publish`),
modelled as its pure error behaviour. -/
abbrev Publisher : Type := SRecordedEvent → Bool → Except String Unit

/-- Two's-complement wraparound of Go's `int64`: the value an `int64`
expression holds, reduced into the range from -2^63 up to 2^63 - 1 (the
Go specification defines signed-integer overflow to wrap). -/
def wrapInt64 (x : Int) : Int := (x + 2 ^ 63) % 2 ^ 64 - 2 ^ 63

/-- The `simpleStore` struct of simplestore.go (the mutex serializes the
methods and is not part of the pure state; the publishers list is set up
before traffic and passed to `Record` explicitly). -/
structure SimpleStore where
  events : List SRecordedEvent
  streams : List (String × List SRecordedEvent)
  nextSequence : Int
deriving DecidableEq, Repr

/-- `NewSimpleStore`: empty log, empty streams, `nextSequence = 1`. -/
def sinit : SimpleStore := { events := [], streams := [], nextSequence := 1 }

/-- The loop body of `simpleStore.appendEvents`: for each event build a
`RecordedEvent` carrying the current `nextSequence`, bump the counter —
an `int64` increment, so it wraps on overflow — and append the record to
the log and to the aggregate's stream. -/
def sappendLoop (aggregateID : String) (s : SimpleStore) :
    List EventVal → SimpleStore × List SRecordedEvent
  | [] => (s, [])
  | e :: rest =>
    let recd : SRecordedEvent := ⟨s.nextSequence, aggregateID, "", e⟩
    let stream := (assocLookup s.streams aggregateID).getD []
    let s1 : SimpleStore :=
      { events := s.events ++ [recd],
        streams := assocInsert s.streams aggregateID (stream ++ [recd]),
        nextSequence := wrapInt64 (s.nextSequence + 1) }
    let pr := sappendLoop aggregateID s1 rest
    (pr.1, recd :: pr.2)

/-- `simpleStore.appendEvents`: reject an empty batch before touching any
state, otherwise run the loop. -/
def sappendEvents (s : SimpleStore) (aggregateID : String) (evs : List EventVal) :
    SimpleStore × Except Err (List SRecordedEvent) :=
  if evs.isEmpty then (s, .error Err.noEvents)
  else
    let pr := sappendLoop aggregateID s evs
    (pr.1, .ok pr.2)

/-- The publish loops of `Record`: every publisher sees every new record
(outer loop publishers, inner loop records), stopping at the first
error. -/
def publishRecs (p : Publisher) : List SRecordedEvent → Except Err Unit
  | [] => .ok ()
  | r :: rest =>
    match p r false with
    | .error msg => .error (Err.publishFailed msg)
    | .ok _ => publishRecs p rest

/-- Iterate `publishRecs` over the registered publishers. -/
def publishAll : List Publisher → List SRecordedEvent → Except Err Unit
  | [], _ => .ok ()
  | p :: ps, recs =>
    match publishRecs p recs with
    | .error e => .error e
    | .ok _ => publishAll ps recs

/-- `simpleStore.Record`: append, then publish each new record to each
registered publisher. -/
def sRecord (pubs : List Publisher) (s : SimpleStore) (aggregateID : String)
    (evs : List EventVal) : SimpleStore × Except Err Unit :=
  match sappendEvents s aggregateID evs with
  | (s1, .error e) => (s1, .error e)
  | (s1, .ok recs) => (s1, publishAll pubs recs)

/-- `simpleStore.LoadStream`: the aggregate's stream (the Go code hands
back a fresh copy of the slice, so the caller receives a plain value —
which is what a Lean value is). -/
def sLoadStream (s : SimpleStore) (aggregateID : String) : List SRecordedEvent :=
  (assocLookup s.streams aggregateID).getD []

/-- One externally triggered mutation of a simple store. -/
inductive SOp
  | append (aggregateID : String) (evs : List EventVal)

/-- Apply one operation to a simple store (keeping whatever state the
call left behind, also when it returns an error). -/
def sstep (s : SimpleStore) : SOp → SimpleStore
  | .append a evs => (sappendEvents s a evs).1

/-- Run a sequence of operations against a simple store. -/
def srun (s : SimpleStore) (ops : List SOp) : SimpleStore := ops.foldl sstep s

/-- One row of the filestore's sqlite `events` table (the `dbEvent`
struct of src/unnamed/part_000). -/
structure FsRow where
  sequence : Int
  aggregateId : String
  eventType : String
  eventJson : Bytes
deriving DecidableEq, Repr

/-- The `fileStore`: its embedded `EventRegistry`, the `events` table,
and the sqlite `integer primary key autoincrement` counter for
`sequence` (next value to assign, starting at 1). -/
structure FileStore where
  registry : Registry
  rows : List FsRow
  nextSequence : Int
deriving DecidableEq, Repr

/-- `NewFileStore` on a fresh database file, with the registry already
populated by startup registration. -/
def finit (reg : Registry) : FileStore :=
  { registry := reg, rows := [], nextSequence := 1 }

/-- The loop body of `fileStore.appendEvents`: marshal the event (an
error aborts the call), execute one `insert ... returning *` statement
(the row is durably committed by that single statement — no transaction
wraps the loop), decode the just-persisted row back through the
registry (an error aborts the call, but the row stays), and continue.
On any error the rows inserted so far remain in the table. -/
def fappendLoop (aggregateID : String) (s : FileStore) :
    List EventVal → FileStore × Except Err (List SRecordedEvent)
  | [] => (s, .ok [])
  | e :: rest =>
    match jsonMarshal e with
    | .error err => (s, .error err)
    | .ok bytes =>
      let row : FsRow := ⟨s.nextSequence, aggregateID, TypeName e, bytes⟩
      let s1 : FileStore :=
        { s with rows := s.rows ++ [row], nextSequence := s.nextSequence + 1 }
      match UnmarshalEvent s1.registry row.eventType row.eventJson with
      | (reg2, .error err) => ({ s1 with registry := reg2 }, .error err)
      | (reg2, .ok v) =>
        let s2 : FileStore := { s1 with registry := reg2 }
        let recd : SRecordedEvent := ⟨row.sequence, aggregateID, row.eventType, v⟩
        let pr := fappendLoop aggregateID s2 rest
        (pr.1,
          match pr.2 with
          | .error err => .error err
          | .ok recs => .ok (recd :: recs))

/-- `fileStore.appendEvents`: reject an empty batch, otherwise run the
per-event insert loop. -/
def fappendEvents (s : FileStore) (aggregateID : String) (evs : List EventVal) :
    FileStore × Except Err (List SRecordedEvent) :=
  if evs.isEmpty then (s, .error Err.noEvents)
  else fappendLoop aggregateID s evs

/-- `fileStore.Record`: append, then publish. -/
def fRecord (pubs : List Publisher) (s : FileStore) (aggregateID : String)
    (evs : List EventVal) : FileStore × Except Err Unit :=
  match fappendEvents s aggregateID evs with
  | (s1, .error e) => (s1, .error e)
  | (s1, .ok recs) => (s1, publishAll pubs recs)

/-- The destination field names sqlx's default mapper derives for the
`RecordedEvent` struct: the struct carries no `db` tags, so each
exported field name is simply lowercased (`Sequence`, `AggregateID`,
`Event`, `EventType`). -/
def recordedEventDests : List String :=
  ["sequence", "aggregateid", "event", "eventtype"]

/-- The columns of the filestore `events` table, in schema order
(`sequence`, `aggregate_id`, `event_type`, `event_json`). -/
def eventsTableColumns : List String :=
  ["sequence", "aggregate_id", "event_type", "event_json"]

/-- `fileStore.LoadStream`:
`s.db.Select(&events, select * from events where aggregate_id = ?
order by sequence asc, ...)` scanning into `[]RecordedEvent`.  sqlx (in
its default, non-unsafe mode) first maps every result column to a
destination field of the untagged struct and fails with a
missing-destination error on the first column that has none — before
scanning a single row, so the failure occurs even for an empty result
set and `event_json` is never decoded.  Only if every column had a
destination would the aggregate's rows be returned; for this schema and
struct the check always fails at `aggregate_id`, so that branch is
never reached. -/
def floadStream (s : FileStore) (aggregateID : String) :
    Except Err (List SRecordedEvent) :=
  match eventsTableColumns.find? (fun c => !(recordedEventDests.contains c)) with
  | some c => .error (Err.missingDestination c)
  | none =>
    .ok ((s.rows.filter (fun r => r.aggregateId == aggregateID)).map
      (fun r => ⟨r.sequence, r.aggregateId, r.eventType, ⟨"", [], true⟩⟩))

/-- One externally triggered mutation of a file store. -/
inductive FOp
  | append (aggregateID : String) (evs : List EventVal)

/-- Apply one operation to a file store (partial failures keep the rows
committed before the failure, exactly as `fappendEvents` leaves them). -/
def fstep (s : FileStore) : FOp → FileStore
  | .append a evs => (fappendEvents s a evs).1

/-- Run a sequence of operations against a file store. -/
def frun (s : FileStore) (ops : List FOp) : FileStore := ops.foldl fstep s

/-- One row of the Service's `events` table (the `Event` struct of
evoke.go's Service part; `created_at` is a wall-clock default and not
modelled). -/
structure DbEvent where
  eventId : Nat
  aggregateId : String
  aggregateType : String
  eventType : String
  eventData : Bytes
deriving DecidableEq, Repr

/-- The `status` column of `saga_instances` takes exactly these three
values in the source. -/
inductive SagaStatus
  | running
  | completed
  | error
deriving DecidableEq, Repr

/-- One row of the `saga_instances` table (`created_at` / `updated_at`
wall-clock columns not modelled). -/
structure SagaRow where
  sagaInstanceId : Nat
  eventId : Nat
  sagaName : String
  status : SagaStatus
  lastError : Option String
deriving DecidableEq, Repr

/-- An `EventDefinition` payload handed to `Service.Insert`: its
`EventType()` and `Aggregate()` strings, its fields, and whether
`json.Marshal` accepts it. -/
structure Payload where
  eventType : String
  aggregate : String
  fields : List (String × Int)
  marshalable : Bool
deriving DecidableEq, Repr

/-- A `HandlerFunc` (sync projection or saga body), modelled as its pure
error behaviour on the event row and replay flag. -/
abbrev HandlerFn : Type := DbEvent → Bool → Except String Unit

/-- A named saga handler (`SagaHandler` struct). -/
structure SagaHandlerM where
  name : String
  handlerFunc : HandlerFn

/-- The Service's handler registrations: `handlers` (sync, run inside
the insert transaction) and `xhandlers` (sagas, run after commit), each
keyed by event type, values in registration order. -/
structure ServiceCfg where
  handlers : List (String × List HandlerFn)
  xhandlers : List (String × List SagaHandlerM)

/-- The Service's database state: the `events` and `saga_instances`
tables with their autoincrement counters (sqlite starts both at 1). -/
structure ServiceState where
  events : List DbEvent
  sagas : List SagaRow
  nextEventId : Nat
  nextSagaId : Nat
deriving DecidableEq, Repr

/-- A Service database as `NewStore` creates it. -/
def svcInit : ServiceState :=
  { events := [], sagas := [], nextEventId := 1, nextSagaId := 1 }

/-- The sync handlers registered for an event type (`s.handlers[key]`,
missing key = no handlers). -/
def handlersFor (cfg : ServiceCfg) (eventType : String) : List HandlerFn :=
  (assocLookup cfg.handlers eventType).getD []

/-- The saga handlers registered for an event type (`s.xhandlers[key]`). -/
def xhandlersFor (cfg : ServiceCfg) (eventType : String) : List SagaHandlerM :=
  (assocLookup cfg.xhandlers eventType).getD []

/-- The row `Service.Insert`'s `insert ... returning *` produces for a
payload: the next autoincrement id, the caller's aggregate id, and the
payload's aggregate type, event type and marshalled data. -/
def mkDbEvent (st : ServiceState) (aggregateID : String) (p : Payload) : DbEvent :=
  { eventId := st.nextEventId,
    aggregateId := aggregateID,
    aggregateType := p.aggregate,
    eventType := p.eventType,
    eventData := .wellFormed ⟨p.fields⟩ }

/-- `Service.runEventHandlers`: run the sync handlers in registration
order; the first error is wrapped (`handler for ... failed`) and
returned, skipping the rest. -/
def runEventHandlers (hs : List HandlerFn) (event : DbEvent) (replay : Bool) :
    Except Err Unit :=
  match hs with
  | [] => .ok ()
  | h :: rest =>
    match h event replay with
    | .error msg => .error (Err.handlerFailed msg)
    | .ok _ => runEventHandlers rest event replay

/-- The `update saga_instances set status = ..., last_error = ... where
saga_instance_id = ?` statement: rewrite the row with that id. -/
def updateSaga (rows : List SagaRow) (id : Nat) (status : SagaStatus)
    (err : Option String) : List SagaRow :=
  rows.map (fun r =>
    if r.sagaInstanceId = id then { r with status := status, lastError := err } else r)

/-- `Service.xrunEventHandlers`: for each saga handler in registration
order, insert a SagaInstance row with status `running`, invoke the
handler, and update the row to `error` (capturing the message) on
failure or to `completed` on success; a handler's failure never stops
the next handler and never fails the call (the source only propagates
database errors from the inserts/updates themselves, which single
statements on the open database are not modelled to produce). -/
def xrunEventHandlers (shs : List SagaHandlerM) (event : DbEvent) (replay : Bool)
    (st : ServiceState) : ServiceState :=
  match shs with
  | [] => st
  | sh :: rest =>
    let rowId := st.nextSagaId
    let created : SagaRow :=
      ⟨rowId, event.eventId, sh.name, SagaStatus.running, none⟩
    let st1 : ServiceState :=
      { st with sagas := st.sagas ++ [created], nextSagaId := rowId + 1 }
    let st2 : ServiceState :=
      match sh.handlerFunc event replay with
      | .error msg =>
        { st1 with sagas := updateSaga st1.sagas rowId SagaStatus.error (some msg) }
      | .ok _ =>
        { st1 with sagas := updateSaga st1.sagas rowId SagaStatus.completed none }
    xrunEventHandlers rest event replay st2

/-- `Service.Insert`: begin a transaction, marshal the payload, insert
the event row inside the transaction, run the sync handlers on the
returned row — any error rolls the transaction back (the pending row is
discarded, nothing else had been written) and is returned — then commit
and run the saga handlers on the now-committed event. -/
def Insert (cfg : ServiceCfg) (st : ServiceState) (aggregateID : String)
    (p : Payload) : ServiceState × Except Err Unit :=
  if p.marshalable then
    let event := mkDbEvent st aggregateID p
    match runEventHandlers (handlersFor cfg p.eventType) event false with
    | .error e => (st, .error e)
    | .ok _ =>
      let st1 : ServiceState :=
        { st with events := st.events ++ [event], nextEventId := st.nextEventId + 1 }
      (xrunEventHandlers (xhandlersFor cfg p.eventType) event false st1, .ok ())
  else (st, .error Err.marshalFailure)

/-- A command (the `Command` interface: exposes its aggregate id). -/
structure Cmd where
  aggregateID : String

/-- An `AggregateHandler` together with the `Aggregate` contract of the
aggregates its factory produces: the factory gives a fresh aggregate
state for an id, `apply` folds one recorded payload into the state, and
`handleCommand` is the decision logic producing new events. -/
structure AggregateHandlerM (σ : Type) where
  aggregateFactory : String → σ
  apply : σ → EventVal → σ
  handleCommand : σ → Cmd → Except String (List EventVal)

/-- `AggregateHandler.Handle` over the in-memory store: rehydrate the
aggregate by folding its stream, run the decision logic, and submit the
resulting events — unconditionally — to the store's `Record`. -/
def Handle {σ : Type} (h : AggregateHandlerM σ) (pubs : List Publisher)
    (store : SimpleStore) (cmd : Cmd) : SimpleStore × Except Err Unit :=
  let aggID := cmd.aggregateID
  let agg0 := h.aggregateFactory aggID
  let events := sLoadStream store aggID
  let agg := events.foldl (fun a re => h.apply a re.event) agg0
  match h.handleCommand agg cmd with
  | .error e => (store, .error (Err.commandFailed e))
  | .ok newEvents => sRecord pubs store aggID newEvents

/-- Whether a type name is registered through a pointer (the condition
under which `UnmarshalEvent` can succeed on well-formed bytes). -/
def ptrRegistered (reg : Registry) (t : String) : Bool :=
  match assocLookup reg t with
  | some en => en.isPtr
  | none => false

/-- The rows the filestore's append loop writes for a list of events,
starting at a given sequence number: one row per event with consecutive
sequences, the event's derived type name and its marshalled fields. -/
def fsRowsOf (startSeq : Int) (aggregateID : String) : List EventVal → List FsRow
  | [] => []
  | e :: rest =>
    ⟨startSeq, aggregateID, TypeName e, Bytes.wellFormed ⟨e.fields⟩⟩ ::
      fsRowsOf (startSeq + 1) aggregateID rest

/-- The sequence numbers the simple store's append loop hands out for a
run of events, starting from a given counter value: each event receives
the current value, and the counter advances by a wrapping int64
increment. -/
def wrapSeqs (start : Int) : Nat → List Int
  | 0 => []
  | n + 1 => start :: wrapSeqs (wrapInt64 (start + 1)) n

/-- The total number of events a list of append operations submits (all
of them are committed: only empty batches fail, and they contribute
zero). -/
def totalEvents : List SOp → Nat
  | [] => 0
  | .append _ evs :: rest => evs.length + totalEvents rest

/-- Concrete two-field event shape used by the closed witnesses and
counterexamples: the zero value of a struct with integer fields a, b. -/
def testProto : EventVal := ⟨"TestEvent", [("a", 0), ("b", 0)], true⟩

/-- A concrete value of the test shape with a = 1, b = 2. -/
def testEventAB : EventVal := ⟨"TestEvent", [("a", 1), ("b", 2)], true⟩

/-- A registry holding the test shape registered through a pointer
(registering a pointer to a zero-valued TestEvent). -/
def testRegPtr : Registry := RegisterEvent [] true testProto

/-- A registry holding the test shape registered by value
(registering a zero-valued TestEvent, not a pointer to it). -/
def testRegValue : Registry := RegisterEvent [] false testProto

/-- An event value whose shape `json.Marshal` rejects. -/
def badEvent : EventVal := ⟨"BadEvent", [], false⟩

/-- A handler that always succeeds. -/
def okFn : HandlerFn := fun _ _ => .ok ()

/-- A handler that always fails with message "boom". -/
def badFn : HandlerFn := fun _ _ => .error "boom"

/-- A concrete payload of event type T. -/
def pW : Payload := ⟨"T", "Agg", [("a", 1)], true⟩

/-- A service configuration whose sync handlers for T are one passing
handler followed by one failing handler. -/
def cfgC7 : ServiceCfg := ⟨[("T", [okFn, badFn])], []⟩

/-- A service configuration with two saga handlers for T: A fails, B
succeeds. -/
def cfgC8 : ServiceCfg := ⟨[], [("T", [⟨"A", badFn⟩, ⟨"B", okFn⟩])]⟩

/-- A trivial aggregate implementation whose decision logic returns an
empty event list for every command. -/
def unitAgg : AggregateHandlerM Unit :=
  { aggregateFactory := fun _ => (),
    apply := fun a _ => a,
    handleCommand := fun _ _ => .ok [] }

instance {ε α : Type} [DecidableEq ε] [DecidableEq α] : DecidableEq (Except ε α) :=
  fun a b =>
    match a, b with
    | .ok x, .ok y =>
      if h : x = y then .isTrue (congrArg Except.ok h)
      else .isFalse (fun he => h (Except.ok.inj he))
    | .error x, .error y =>
      if h : x = y then .isTrue (congrArg Except.error h)
      else .isFalse (fun he => h (Except.error.inj he))
    | .ok _, .error _ => .isFalse (fun he => Except.noConfusion he)
    | .error _, .ok _ => .isFalse (fun he => Except.noConfusion he)

/-- A list of already-assigned sequence numbers is consistent with the
next value of the counter: all below it, and strictly increasing. -/
def seqOk (l : List Int) (n : Int) : Prop :=
  (∀ x ∈ l, x < n) ∧ l.Pairwise (· < ·)

/-- Sequence invariant of a simple store: the log's sequences are
consistent with the counter, and the counter equals one more than the
number of events recorded so far (true as long as the int64 counter has
never wrapped). -/
def sInv (s : SimpleStore) : Prop :=
  seqOk (s.events.map (fun r => r.sequence)) s.nextSequence
  ∧ s.nextSequence = 1 + (s.events.length : Int)

/-- Per-aggregate streams of a simple store hold exactly the log's
events for that aggregate, in log order. -/
def streamsOk (s : SimpleStore) : Prop :=
  ∀ a : String, sLoadStream s a = s.events.filter (fun r => r.aggregateId == a)

/-- Sequence invariant of a file store. -/
def fInv (s : FileStore) : Prop :=
  seqOk (s.rows.map (fun r => r.sequence)) s.nextSequence

/-! Lemmas about the association-list operations. -/

lemma assocLookup_insert {α : Type} (m : List (String × α)) (k t : String) (v : α) :
    assocLookup (assocInsert m k v) t = if k = t then some v else assocLookup m t := by
  induction m with
  | nil => simp only [assocInsert, assocLookup]
  | cons kv rest ih =>
    obtain ⟨k1, v1⟩ := kv
    simp only [assocInsert]
    by_cases hk : k1 = k
    · subst hk
      simp only [if_pos rfl, assocLookup]
      by_cases ht : k1 = t
      · subst ht; simp
      · simp [ht]
    · simp only [if_neg hk, assocLookup, ih]
      by_cases ht : k1 = t
      · subst ht
        have hkt : ¬(k = k1) := fun hh => hk hh.symm
        simp [hkt]
      · simp [ht]

/-- Unmarshalling a payload that mentions every field of the target, in
the target's field order, with no duplicate names, replaces the target's
contents with exactly the payload. -/
lemma jsonUnmarshalInto_aligned :
    ∀ pf ef : List (String × Int), pf.map Prod.fst = ef.map Prod.fst →
      (ef.map Prod.fst).Nodup → jsonUnmarshalInto pf ⟨ef⟩ = ef := by
  intro pf
  induction pf with
  | nil =>
    intro ef hm _
    rw [List.map_eq_nil_iff.mp hm.symm]
    rfl
  | cons nv pt ih =>
    intro ef hm hnd
    cases ef with
    | nil => simp at hm
    | cons ev et =>
      obtain ⟨n, pv⟩ := nv
      obtain ⟨n2, evv⟩ := ev
      simp only [List.map_cons, List.cons.injEq] at hm
      obtain ⟨hn, ht⟩ := hm
      subst hn
      simp only [List.map_cons, List.nodup_cons] at hnd
      obtain ⟨hnotin, hnd2⟩ := hnd
      simp only [jsonUnmarshalInto, List.map_cons]
      have hhead : assocLookup ((n, evv) :: et) n = some evv := by
        simp [assocLookup]
      have htail : ∀ nv2 ∈ pt,
          (nv2.1, (assocLookup ((n, evv) :: et) nv2.1).getD nv2.2)
            = (nv2.1, (assocLookup et nv2.1).getD nv2.2) := by
        intro nv2 hnv2
        have hmem : nv2.1 ∈ et.map Prod.fst := ht ▸ List.mem_map_of_mem Prod.fst hnv2
        have hne : ¬(n = nv2.1) := fun hq => hnotin (hq ▸ hmem)
        simp [assocLookup, hne]
      rw [hhead]
      simp only [Option.getD_some, List.cons.injEq, true_and]
      rw [List.map_congr_left htail]
      exact ih et ht hnd2

/-- Claim C5: `UnmarshalEvent` on an unregistered type name fails with
the unregistered-type error and returns no event (the registry is left
untouched); on a registered type name with bytes that do not
deserialize it fails with the deserialization error.  No default or
zero value is returned in either case. -/
theorem claim_C5_unmarshal_failures (reg : Registry) (t : String) (d : Bytes) :
    (assocLookup reg t = none →
      UnmarshalEvent reg t d = (reg, Except.error (Err.unregisteredType t)))
    ∧ (∀ en : RegEntry, assocLookup reg t = some en → d = Bytes.malformed →
      UnmarshalEvent reg t d = (reg, Except.error Err.malformedPayload)) := by
  constructor
  · intro hnone
    simp [UnmarshalEvent, hnone]
  · intro en hsome hmal
    subst hmal
    simp [UnmarshalEvent, hsome]

/-- Witness for C5: a concrete unregistered lookup and a concrete
malformed payload, both failing as the theorem states. -/
theorem claim_C5_unmarshal_failures_witness :
    UnmarshalEvent [] "Nope" Bytes.malformed
      = ([], Except.error (Err.unregisteredType "Nope"))
    ∧ UnmarshalEvent testRegPtr "TestEvent" Bytes.malformed
      = (testRegPtr, Except.error Err.malformedPayload) :=
  ⟨(claim_C5_unmarshal_failures [] "Nope" Bytes.malformed).1 rfl,
   (claim_C5_unmarshal_failures testRegPtr "TestEvent" Bytes.malformed).2
     ⟨true, testProto⟩ (by decide) rfl⟩

/-- Claim C3, counterexample: registering an event shape by value (not
through a pointer) is a registration `RegisterEvent` accepts, yet
decoding the encoded bytes of such a value always fails —
`json.Unmarshal` refuses a non-pointer target — so the round trip does
not return the original event. -/
theorem claim_C3_counterexample :
    jsonMarshal testEventAB = Except.ok (Bytes.wellFormed ⟨[("a", 1), ("b", 2)]⟩)
    ∧ (UnmarshalEvent testRegValue (TypeName testEventAB)
        (Bytes.wellFormed ⟨[("a", 1), ("b", 2)]⟩)).2
      = Except.error Err.invalidUnmarshalTarget
    ∧ (UnmarshalEvent testRegValue (TypeName testEventAB)
        (Bytes.wellFormed ⟨[("a", 1), ("b", 2)]⟩)).2
      ≠ Except.ok testEventAB := by
  refine ⟨by decide, by decide, by decide⟩

/-- Claim C3 as amended: for every event shape registered through a
pointer (the only registrations whose decode can succeed), encoding a
value of that shape as the store's append does — derived type name plus
JSON-marshalled fields — and decoding through `UnmarshalEvent` returns
the original event field-for-field. -/
theorem claim_C3_roundtrip_amended (reg : Registry) (entry : RegEntry) (e : EventVal)
    (hreg : assocLookup reg e.typeName = some entry)
    (hptr : entry.isPtr = true)
    (hname : entry.proto.typeName = e.typeName)
    (hmar : entry.proto.marshalable = e.marshalable)
    (hfields : entry.proto.fields.map Prod.fst = e.fields.map Prod.fst)
    (hnodup : (e.fields.map Prod.fst).Nodup)
    (hok : e.marshalable = true) :
    jsonMarshal e = Except.ok (Bytes.wellFormed ⟨e.fields⟩)
    ∧ (UnmarshalEvent reg (TypeName e) (Bytes.wellFormed ⟨e.fields⟩)).2
      = Except.ok e := by
  constructor
  · simp [jsonMarshal, hok]
  · simp only [UnmarshalEvent, TypeName, hreg, hptr, if_true]
    rw [jsonUnmarshalInto_aligned entry.proto.fields e.fields hfields hnodup]
    rw [show ({ entry.proto with fields := e.fields } : EventVal)
        = ⟨entry.proto.typeName, e.fields, entry.proto.marshalable⟩ from rfl]
    rw [hname, hmar]

/-- Witness for amended C3: the concrete test shape, registered through
a pointer, round-trips. -/
theorem claim_C3_roundtrip_amended_witness :
    jsonMarshal testEventAB = Except.ok (Bytes.wellFormed ⟨testEventAB.fields⟩)
    ∧ (UnmarshalEvent testRegPtr (TypeName testEventAB)
        (Bytes.wellFormed ⟨testEventAB.fields⟩)).2 = Except.ok testEventAB :=
  claim_C3_roundtrip_amended testRegPtr ⟨true, testProto⟩ testEventAB
    (by decide) rfl rfl rfl (by decide) (by decide) rfl

/-- Claim C4 (the code at the claim's failing input): with a pointer
registration, the constructor closure returns the same shared instance
on every call, so a second decode whose payload omits a field keeps
that field's value from the previous decode — decoding is not into a
fresh instance and two decodes of the same type do share state.  The
first conjunct decodes a full payload and then a partial one through
the updated registry, observing the stale field b = 2; the second
conjunct shows the same partial payload decoded against the original
registry yields b = 0, so a decode's result depends on earlier decodes. -/
theorem claim_C4_stale_fields :
    (UnmarshalEvent
        (UnmarshalEvent testRegPtr "TestEvent"
          (Bytes.wellFormed ⟨[("a", 1), ("b", 2)]⟩)).1
        "TestEvent" (Bytes.wellFormed ⟨[("a", 5)]⟩)).2
      = Except.ok ⟨"TestEvent", [("a", 5), ("b", 2)], true⟩
    ∧ (UnmarshalEvent testRegPtr "TestEvent" (Bytes.wellFormed ⟨[("a", 5)]⟩)).2
      = Except.ok ⟨"TestEvent", [("a", 5), ("b", 0)], true⟩ := by
  refine ⟨by decide, by decide⟩

/-- Claim C6: appending an empty event list — through `appendEvents` or
through `Record`, on either store backend — fails with the no-events
error and leaves the store exactly as it was. -/
theorem claim_C6_empty_append_rejected (pubs : List Publisher) (s : SimpleStore)
    (fs : FileStore) (aggregateID : String) :
    sappendEvents s aggregateID [] = (s, Except.error Err.noEvents)
    ∧ fappendEvents fs aggregateID [] = (fs, Except.error Err.noEvents)
    ∧ sRecord pubs s aggregateID [] = (s, Except.error Err.noEvents)
    ∧ fRecord pubs fs aggregateID [] = (fs, Except.error Err.noEvents) :=
  ⟨rfl, rfl, rfl, rfl⟩

/-! Sequence-number and stream invariants of the two stores. -/

lemma seqOk_nil (n : Int) : seqOk [] n :=
  ⟨fun x hx => absurd hx (List.not_mem_nil x), List.Pairwise.nil⟩

lemma seqOk_snoc {l : List Int} {n : Int} (h : seqOk l n) : seqOk (l ++ [n]) (n + 1) := by
  obtain ⟨hb, hp⟩ := h
  constructor
  · intro x hx
    rcases List.mem_append.mp hx with hx | hx
    · exact lt_trans (hb x hx) (lt_add_one n)
    · rw [List.mem_singleton.mp hx]
      exact lt_add_one n
  · refine List.pairwise_append.mpr ⟨hp, List.pairwise_singleton _ _, ?_⟩
    intro a ha b hb2
    rw [List.mem_singleton.mp hb2]
    exact hb a ha

lemma wrapInt64_bounds (x : Int) : -(2 ^ 63) ≤ wrapInt64 x ∧ wrapInt64 x < 2 ^ 63 := by
  unfold wrapInt64
  omega

lemma wrapInt64_eq_self {x : Int} (h1 : -(2 ^ 63) ≤ x) (h2 : x < 2 ^ 63) :
    wrapInt64 x = x := by
  unfold wrapInt64
  omega

lemma wrapInt64_idem (x : Int) : wrapInt64 (wrapInt64 x) = wrapInt64 x :=
  wrapInt64_eq_self (wrapInt64_bounds x).1 (wrapInt64_bounds x).2

/-- While the counter stays below the int64 maximum — guaranteed while
the store holds at most 2^63 - 2 events — each loop step increments it
without wrapping, preserving the invariant and adding one event. -/
lemma sappendLoop_budget (aggregateID : String) :
    ∀ (evs : List EventVal) (s : SimpleStore), sInv s →
      s.events.length + evs.length ≤ 2 ^ 63 - 2 →
      sInv (sappendLoop aggregateID s evs).1
      ∧ (sappendLoop aggregateID s evs).1.events.length
          = s.events.length + evs.length := by
  intro evs
  induction evs with
  | nil =>
    intro s h _
    exact ⟨h, by simp [sappendLoop]⟩
  | cons e rest ih =>
    intro s h hbud
    obtain ⟨hseq, hcount⟩ := h
    have hlen : s.events.length + (rest.length + 1) ≤ 2 ^ 63 - 2 := by
      simpa using hbud
    have hw : wrapInt64 (s.nextSequence + 1) = s.nextSequence + 1 := by
      apply wrapInt64_eq_self
      · omega
      · omega
    simp only [sappendLoop]
    have hstep : sInv (⟨s.events ++ [⟨s.nextSequence, aggregateID, "", e⟩],
        assocInsert s.streams aggregateID
          (((assocLookup s.streams aggregateID).getD []) ++
            [⟨s.nextSequence, aggregateID, "", e⟩]),
        wrapInt64 (s.nextSequence + 1)⟩ : SimpleStore) := by
      constructor
      · show seqOk _ (wrapInt64 (s.nextSequence + 1))
        rw [hw]
        simp only [List.map_append, List.map_cons, List.map_nil]
        exact seqOk_snoc hseq
      · show wrapInt64 (s.nextSequence + 1)
          = 1 + ((s.events
              ++ ([⟨s.nextSequence, aggregateID, "", e⟩] : List SRecordedEvent)).length
            : Int)
        rw [hw, hcount]
        simp only [List.length_append, List.length_cons, List.length_nil]
        push_cast
        ring
    have hbud3 : (s.events
          ++ ([⟨s.nextSequence, aggregateID, "", e⟩] : List SRecordedEvent)).length
        + rest.length ≤ 2 ^ 63 - 2 := by
      simp only [List.length_append, List.length_cons, List.length_nil]
      simp only [List.length_cons] at hbud
      omega
    obtain ⟨h1, h2⟩ := ih _ hstep hbud3
    refine ⟨h1, ?_⟩
    rw [h2]
    simp only [List.length_append, List.length_cons, List.length_nil]
    omega

/-- Running any operation sequence whose total event count respects the
no-overflow budget preserves the invariant and grows the log by exactly
that count. -/
lemma srun_budget :
    ∀ (ops : List SOp) (s : SimpleStore), sInv s →
      s.events.length + totalEvents ops ≤ 2 ^ 63 - 2 →
      sInv (srun s ops)
      ∧ (srun s ops).events.length = s.events.length + totalEvents ops := by
  intro ops
  induction ops with
  | nil =>
    intro s h _
    exact ⟨h, by simp [srun, totalEvents]⟩
  | cons op rest ih =>
    intro s h hbud
    obtain ⟨a, evs⟩ := op
    by_cases hemp : evs.isEmpty = true
    · have hnil : evs = [] := List.isEmpty_iff.mp hemp
      subst hnil
      have hsr : srun s (SOp.append a [] :: rest) = srun s rest := by
        simp [srun, sstep, sappendEvents]
      rw [hsr]
      have hb : s.events.length + totalEvents rest ≤ 2 ^ 63 - 2 := by
        simpa [totalEvents] using hbud
      obtain ⟨h1, h2⟩ := ih s h hb
      exact ⟨h1, by rw [h2]; simp [totalEvents]⟩
    · have hemp2 : evs.isEmpty = false := by
        revert hemp
        cases evs.isEmpty <;> simp
      have hsr : srun s (SOp.append a evs :: rest)
          = srun (sappendLoop a s evs).1 rest := by
        simp [srun, sstep, sappendEvents, hemp2]
      have hb1 : s.events.length + evs.length ≤ 2 ^ 63 - 2 := by
        simp only [totalEvents] at hbud
        omega
      obtain ⟨h1, h2⟩ := sappendLoop_budget a evs s h hb1
      have hb2 : (sappendLoop a s evs).1.events.length + totalEvents rest
          ≤ 2 ^ 63 - 2 := by
        rw [h2]
        simp only [totalEvents] at hbud
        omega
      obtain ⟨h3, h4⟩ := ih _ h1 hb2
      rw [hsr]
      refine ⟨h3, ?_⟩
      rw [h4, h2]
      simp only [totalEvents]
      omega

lemma sappendLoop_streamsOk (aggregateID : String) (evs : List EventVal) :
    ∀ s : SimpleStore, streamsOk s → streamsOk (sappendLoop aggregateID s evs).1 := by
  induction evs with
  | nil => intro s h; exact h
  | cons e rest ih =>
    intro s h
    simp only [sappendLoop]
    apply ih
    intro a
    simp only [sLoadStream, assocLookup_insert, List.filter_append]
    by_cases ha : aggregateID = a
    · subst ha
      simp only [if_pos rfl, Option.getD_some]
      have hstream : (assocLookup s.streams aggregateID).getD [] =
          s.events.filter (fun r => r.aggregateId == aggregateID) := h aggregateID
      rw [hstream]
      simp [List.filter]
    · simp only [if_neg ha]
      have hrec : (List.filter (fun r => r.aggregateId == a)
          ([⟨s.nextSequence, aggregateID, "", e⟩] : List SRecordedEvent)) = [] := by
        have hfa : (aggregateID == a) = false := beq_eq_false_iff_ne.mpr ha
        simp [List.filter, hfa]
      rw [hrec, List.append_nil]
      exact h a

lemma sstep_streamsOk (s : SimpleStore) (op : SOp) (h : streamsOk s) :
    streamsOk (sstep s op) := by
  cases op with
  | append a evs =>
    simp only [sstep, sappendEvents]
    split
    · exact h
    · exact sappendLoop_streamsOk a evs s h

lemma srun_streamsOk (ops : List SOp) :
    ∀ s : SimpleStore, streamsOk s → streamsOk (srun s ops) := by
  induction ops with
  | nil => intro s h; exact h
  | cons op rest ih =>
    intro s h
    exact ih (sstep s op) (sstep_streamsOk s op h)

lemma sinit_sInv : sInv sinit := ⟨seqOk_nil 1, by simp [sinit]⟩

lemma sinit_streamsOk : streamsOk sinit := by
  intro a
  rfl

lemma fappendLoop_fInv (aggregateID : String) (evs : List EventVal) :
    ∀ s : FileStore, fInv s → fInv (fappendLoop aggregateID s evs).1 := by
  induction evs with
  | nil => intro s h; exact h
  | cons e rest ih =>
    intro s h
    simp only [fappendLoop]
    cases hm : jsonMarshal e with
    | error err => exact h
    | ok bytes =>
      simp only []
      have hstep : fInv ({ s with
          rows := s.rows ++ [⟨s.nextSequence, aggregateID, TypeName e, bytes⟩],
          nextSequence := s.nextSequence + 1 } : FileStore) := by
        unfold fInv at h ⊢
        simp only [List.map_append, List.map_cons, List.map_nil]
        exact seqOk_snoc h
      rcases hu : UnmarshalEvent s.registry (TypeName e) bytes with ⟨reg2, res⟩
      cases res with
      | error err => exact hstep
      | ok v => exact ih _ hstep

lemma fstep_fInv (s : FileStore) (op : FOp) (h : fInv s) : fInv (fstep s op) := by
  cases op with
  | append a evs =>
    simp only [fstep, fappendEvents]
    split
    · exact h
    · exact fappendLoop_fInv a evs s h

lemma frun_fInv (ops : List FOp) : ∀ s : FileStore, fInv s → fInv (frun s ops) := by
  induction ops with
  | nil => intro s h; exact h
  | cons op rest ih =>
    intro s h
    exact ih (fstep s op) (fstep_fInv s op h)

lemma finit_fInv (reg : Registry) : fInv (finit reg) := seqOk_nil 1

lemma wrapSeqs_length : ∀ (n : Nat) (start : Int), (wrapSeqs start n).length = n := by
  intro n
  induction n with
  | zero => intro start; rfl
  | succ m ih =>
    intro start
    simp [wrapSeqs, ih]

/-- Every sequence number the loop hands out from an in-range starting
counter lies in the int64 range. -/
lemma wrapSeqs_mem_range : ∀ (n : Nat) (start : Int), wrapInt64 start = start →
    ∀ x ∈ wrapSeqs start n, -(2 ^ 63) ≤ x ∧ x < 2 ^ 63 := by
  intro n
  induction n with
  | zero =>
    intro start _ x hx
    simp [wrapSeqs] at hx
  | succ m ih =>
    intro start hs x hx
    simp only [wrapSeqs, List.mem_cons] at hx
    rcases hx with hx1 | hx
    · rw [hx1, ← hs]
      exact wrapInt64_bounds start
    · exact ih (wrapInt64 (start + 1)) (wrapInt64_idem (start + 1)) x hx

/-- The sequences recorded by the simple store's loop are exactly the
wrapping counter run starting at the current `nextSequence`. -/
lemma sappendLoop_seqs (aggregateID : String) :
    ∀ (evs : List EventVal) (s : SimpleStore),
      ((sappendLoop aggregateID s evs).1.events).map (fun r => r.sequence)
        = s.events.map (fun r => r.sequence) ++ wrapSeqs s.nextSequence evs.length := by
  intro evs
  induction evs with
  | nil =>
    intro s
    simp [sappendLoop, wrapSeqs]
  | cons e rest ih =>
    intro s
    simp only [sappendLoop, List.length_cons]
    rw [ih]
    simp only [List.map_append, List.map_cons, List.map_nil, wrapSeqs]
    simp [List.append_assoc]

/-- In a strictly increasing integer list the element at position i is
at least the head plus i. -/
lemma pairwise_lt_ge_head :
    ∀ (l : List Int) (a : Int), l.head? = some a → l.Pairwise (· < ·) →
      ∀ (i : Nat) (h : i < l.length), a + (i : Int) ≤ l.get ⟨i, h⟩ := by
  intro l
  induction l with
  | nil =>
    intro a ha
    exact absurd ha (by simp)
  | cons x t ih =>
    intro a ha hp i h
    rw [List.head?_cons, Option.some.injEq] at ha
    subst ha
    cases i with
    | zero => simp
    | succ j =>
      cases t with
      | nil => exact absurd (Nat.lt_of_succ_lt_succ h) (Nat.not_lt_zero j)
      | cons b t2 =>
        have hj : j < (b :: t2).length := Nat.lt_of_succ_lt_succ h
        have hpc := List.pairwise_cons.mp hp
        have hxb : x < b := hpc.1 b (List.mem_cons_self b t2)
        have iht := ih b rfl hpc.2 j hj
        have hget : (x :: b :: t2).get ⟨j + 1, h⟩ = (b :: t2).get ⟨j, hj⟩ := rfl
        rw [hget]
        push_cast
        push_cast at iht
        omega

/-- Running a single operation is stepping it. -/
lemma srun_single (s : SimpleStore) (op : SOp) : srun s [op] = sstep s op := rfl

/-- Stepping a non-empty append runs the loop. -/
lemma sstep_append_nonempty (s : SimpleStore) (aggregateID : String)
    (evs : List EventVal) (h : evs.isEmpty = false) :
    sstep s (SOp.append aggregateID evs) = (sappendLoop aggregateID s evs).1 := by
  unfold sstep sappendEvents
  dsimp only
  rw [h, if_neg Bool.false_ne_true]

lemma wrapSeqs_head (n : Nat) (start : Int) :
    (wrapSeqs start (n + 1)).head? = some start := rfl

/-- Claim C1, counterexample: the in-memory store's `nextSequence` is a
Go int64 incremented without any overflow check, so the claim as
stated — over every sequence of successful appends — fails at the
concrete input of one append of 2^63 events: the counter reaches the
int64 maximum and wraps to the minimum, and the resulting log's
sequence numbers are not strictly increasing. -/
theorem claim_C1_counterexample :
    ¬ ((srun sinit [SOp.append "x" (List.replicate (2 ^ 63) testProto)]).events.map
        (fun r => r.sequence)).Pairwise (· < ·) := by
  intro hp
  have hN : (2 : Nat) ^ 63 = (2 ^ 63 - 1) + 1 := by norm_num
  have hemp : (List.replicate ((2 : Nat) ^ 63) testProto).isEmpty = false := by
    rw [hN, List.replicate_succ]
    rfl
  have hev : (srun sinit [SOp.append "x" (List.replicate (2 ^ 63) testProto)]).events.map
      (fun r => r.sequence) = wrapSeqs 1 (2 ^ 63) := by
    rw [srun_single, sstep_append_nonempty sinit "x" _ hemp, sappendLoop_seqs]
    simp only [sinit, List.map_nil, List.nil_append, List.length_replicate]
  rw [hev] at hp
  have hlen := wrapSeqs_length (2 ^ 63) 1
  have hi : (2 ^ 63 - 1 : Nat) < (wrapSeqs 1 (2 ^ 63)).length := by
    rw [hlen]
    norm_num
  have hhead : (wrapSeqs 1 (2 ^ 63)).head? = some 1 := by
    have h := wrapSeqs_head (2 ^ 63 - 1) 1
    rwa [← hN] at h
  have hgrow := pairwise_lt_ge_head (wrapSeqs 1 (2 ^ 63)) 1 hhead hp (2 ^ 63 - 1) hi
  have hmem : (wrapSeqs 1 (2 ^ 63)).get ⟨2 ^ 63 - 1, hi⟩ ∈ wrapSeqs 1 (2 ^ 63) :=
    List.get_mem _ _ _
  have hw1 : wrapInt64 1 = 1 := wrapInt64_eq_self (by norm_num) (by norm_num)
  have hrange := wrapSeqs_mem_range (2 ^ 63) 1 hw1 _ hmem
  have hcast : ((2 ^ 63 - 1 : Nat) : Int) = 2 ^ 63 - 1 := by omega
  rw [hcast] at hgrow
  have hub := hrange.2
  omega

/-- Claim C1 as amended: over any sequence of appends totaling at most
2^63 - 2 events on the in-memory store — so its int64 counter never
overflows — and over any sequence of appends at all on the file-backed
store (whose sqlite autoincrement never wraps, it errors at the
maximum), the sequence numbers of the recorded events, read in
insertion order, are strictly increasing; in particular no two events
share a sequence number and every later event's sequence exceeds every
earlier one's. -/
theorem claim_C1_sequences_strictly_increasing (sops : List SOp) (fops : List FOp)
    (reg : Registry) (hbudget : totalEvents sops ≤ 2 ^ 63 - 2) :
    ((srun sinit sops).events.map (fun r => r.sequence)).Pairwise (· < ·)
    ∧ ((frun (finit reg) fops).rows.map (fun r => r.sequence)).Pairwise (· < ·) :=
  ⟨((srun_budget sops sinit sinit_sInv (by simpa [sinit] using hbudget)).1).1.2,
   (frun_fInv fops (finit reg) (finit_fInv reg)).2⟩

/-- Witness for amended C1: a two-event append on the in-memory store
and a one-event append on the file store, comfortably inside the
budget. -/
theorem claim_C1_sequences_strictly_increasing_witness :
    ((srun sinit [SOp.append "x" [testProto, testEventAB]]).events.map
        (fun r => r.sequence)).Pairwise (· < ·)
    ∧ ((frun (finit testRegPtr) [FOp.append "x" [testEventAB]]).rows.map
        (fun r => r.sequence)).Pairwise (· < ·) :=
  claim_C1_sequences_strictly_increasing [SOp.append "x" [testProto, testEventAB]]
    [FOp.append "x" [testEventAB]] testRegPtr (by norm_num [totalEvents])

/-- Claim C2 (the code at the claim's failing input): the file-backed
store's `LoadStream` scans its query into the untagged `RecordedEvent`
struct, whose sqlx-derived destination names (lowercased Go field
names) do not include the `aggregate_id` column, so every call — on
every store state and every aggregate id, before reading a single row —
returns the missing-destination error and never the appended events.
The second conjunct shows the events are nonetheless durably present:
the same store provably holds the row just appended for the queried
aggregate, yet `LoadStream` cannot return it. -/
theorem claim_C2_fileStore_loadStream_always_errors :
    (∀ (fs : FileStore) (aggregateID : String),
      floadStream fs aggregateID
        = Except.error (Err.missingDestination "aggregate_id"))
    ∧ (fappendEvents (finit testRegPtr) "A" [testEventAB]).1.rows
      = fsRowsOf 1 "A" [testEventAB] := by
  refine ⟨fun fs aggregateID => rfl, by decide⟩

/-! The filestore's best-effort batch commit. -/

/-- Decoding leaves every pointer registration a pointer registration
(only the shared prototype's contents change). -/
lemma ptrRegistered_unmarshal (reg : Registry) (t t2 : String) (d : Bytes)
    (h : ptrRegistered reg t2 = true) :
    ptrRegistered (UnmarshalEvent reg t d).1 t2 = true := by
  unfold UnmarshalEvent
  cases hl : assocLookup reg t with
  | none => exact h
  | some entry =>
    cases d with
    | malformed => exact h
    | wellFormed obj =>
      dsimp only
      by_cases hp : entry.isPtr = true
      · rw [if_pos hp]
        unfold ptrRegistered
        rw [assocLookup_insert]
        by_cases ht : t = t2
        · subst ht
          unfold ptrRegistered at h
          rw [hl] at h
          simpa using h
        · rw [if_neg ht]
          exact h
      · rw [if_neg hp]
        exact h

/-- Unfolding one successful iteration of the filestore append loop:
when the head event marshals and decodes, the loop continues from the
state holding the freshly inserted row, the bumped sequence counter and
the updated registry. -/
lemma fappendLoop_cons_ok (aggregateID : String) (s : FileStore) (e : EventVal)
    (rest2 : List EventVal) (bytes : Bytes) (reg2 : Registry) (v : EventVal)
    (hm : jsonMarshal e = .ok bytes)
    (hu : UnmarshalEvent s.registry (TypeName e) bytes = (reg2, .ok v)) :
    (fappendLoop aggregateID s (e :: rest2)).1
        = (fappendLoop aggregateID
            ⟨reg2, s.rows ++ [⟨s.nextSequence, aggregateID, TypeName e, bytes⟩],
              s.nextSequence + 1⟩ rest2).1
      ∧ (fappendLoop aggregateID s (e :: rest2)).2
        = (match (fappendLoop aggregateID
            ⟨reg2, s.rows ++ [⟨s.nextSequence, aggregateID, TypeName e, bytes⟩],
              s.nextSequence + 1⟩ rest2).2 with
          | .error err => .error err
          | .ok recs => .ok (⟨s.nextSequence, aggregateID, TypeName e, v⟩ :: recs)) := by
  simp only [fappendLoop, hm, hu]
  exact ⟨trivial, trivial⟩

/-- The append loop on a batch whose first events all marshal and decode
(marshalable shapes registered through pointers) followed by an
unmarshalable event: the call fails with the marshal error, but the
rows for the leading events are left committed in the table. -/
lemma fappendLoop_bestEffort (aggregateID : String) (bad : EventVal)
    (rest : List EventVal) (hbad : bad.marshalable = false) :
    ∀ (goods : List EventVal) (s : FileStore),
      (∀ g ∈ goods, g.marshalable = true) →
      (∀ g ∈ goods, ptrRegistered s.registry g.typeName = true) →
      (fappendLoop aggregateID s (goods ++ bad :: rest)).1.rows
          = s.rows ++ fsRowsOf s.nextSequence aggregateID goods
        ∧ (fappendLoop aggregateID s (goods ++ bad :: rest)).2
          = Except.error Err.marshalFailure := by
  intro goods
  induction goods with
  | nil =>
    intro s _ _
    have hm : jsonMarshal bad = .error Err.marshalFailure := by
      simp [jsonMarshal, hbad]
    simp [List.nil_append, fappendLoop, hm, fsRowsOf]
  | cons g gt ih =>
    intro s hgm hgr
    have hm : jsonMarshal g = .ok (.wellFormed ⟨g.fields⟩) := by
      simp [jsonMarshal, hgm g (List.mem_cons_self g gt)]
    have hpr := hgr g (List.mem_cons_self g gt)
    obtain ⟨en, hlook, hisptr⟩ :
        ∃ en, assocLookup s.registry g.typeName = some en ∧ en.isPtr = true := by
      unfold ptrRegistered at hpr
      cases hl : assocLookup s.registry g.typeName with
      | none => rw [hl] at hpr; simp at hpr
      | some en => rw [hl] at hpr; exact ⟨en, rfl, hpr⟩
    have hu : UnmarshalEvent s.registry (TypeName g) (.wellFormed ⟨g.fields⟩)
        = (assocInsert s.registry g.typeName
             ⟨en.isPtr, { en.proto with
               fields := jsonUnmarshalInto en.proto.fields ⟨g.fields⟩ }⟩,
           .ok { en.proto with
               fields := jsonUnmarshalInto en.proto.fields ⟨g.fields⟩ }) := by
      unfold UnmarshalEvent TypeName
      rw [hlook]
      dsimp only
      rw [if_pos hisptr]
    obtain ⟨h1, h2⟩ := fappendLoop_cons_ok aggregateID s g (gt ++ bad :: rest)
      (Bytes.wellFormed ⟨g.fields⟩)
      (assocInsert s.registry g.typeName
        ⟨en.isPtr, { en.proto with
          fields := jsonUnmarshalInto en.proto.fields ⟨g.fields⟩ }⟩)
      ({ en.proto with fields := jsonUnmarshalInto en.proto.fields ⟨g.fields⟩ })
      hm hu
    have hgm2 : ∀ g2 ∈ gt, g2.marshalable = true :=
      fun g2 hg2 => hgm g2 (List.mem_cons_of_mem g hg2)
    have hgr2 : ∀ g2 ∈ gt,
        ptrRegistered (assocInsert s.registry g.typeName
          ⟨en.isPtr, { en.proto with
            fields := jsonUnmarshalInto en.proto.fields ⟨g.fields⟩ }⟩) g2.typeName
          = true := by
      intro g2 hg2
      have hpres := ptrRegistered_unmarshal s.registry (TypeName g) g2.typeName
        (.wellFormed ⟨g.fields⟩) (hgr g2 (List.mem_cons_of_mem g hg2))
      rw [hu] at hpres
      exact hpres
    obtain ⟨ihrows, iherr⟩ := ih
      ⟨assocInsert s.registry g.typeName
         ⟨en.isPtr, { en.proto with
           fields := jsonUnmarshalInto en.proto.fields ⟨g.fields⟩ }⟩,
       s.rows ++ [⟨s.nextSequence, aggregateID, TypeName g, .wellFormed ⟨g.fields⟩⟩],
       s.nextSequence + 1⟩ hgm2 hgr2
    constructor
    · rw [List.cons_append, h1, ihrows]
      simp [fsRowsOf]
    · rw [List.cons_append, h2, iherr]

/-- Claim C9: in the file-backed store's batch append, when the events
before some position all encode and persist (marshalable values of
pointer-registered shapes) and the event at that position fails to
encode, the call returns the encoding error, yet the rows for the
earlier events of the same batch remain committed in the events table —
each event was persisted by its own insert statement and no transaction
wraps the batch. -/
theorem claim_C9_batch_commit_best_effort (fs : FileStore) (aggregateID : String)
    (goods : List EventVal) (bad : EventVal) (rest : List EventVal)
    (hgm : ∀ g ∈ goods, g.marshalable = true)
    (hgr : ∀ g ∈ goods, ptrRegistered fs.registry g.typeName = true)
    (hbad : bad.marshalable = false) :
    (fappendEvents fs aggregateID (goods ++ bad :: rest)).1.rows
        = fs.rows ++ fsRowsOf fs.nextSequence aggregateID goods
      ∧ (fappendEvents fs aggregateID (goods ++ bad :: rest)).2
        = Except.error Err.marshalFailure := by
  have hne : (goods ++ bad :: rest).isEmpty = false := by
    cases goods <;> rfl
  simp only [fappendEvents, hne, Bool.false_eq_true, if_false]
  exact fappendLoop_bestEffort aggregateID bad rest hbad goods fs hgm hgr

/-- Witness for C9: one good event followed by an unmarshalable one;
the good event's row stays committed while the call errors. -/
theorem claim_C9_batch_commit_best_effort_witness :
    (fappendEvents (finit testRegPtr) "agg" [testEventAB, badEvent]).1.rows
        = (finit testRegPtr).rows
            ++ fsRowsOf (finit testRegPtr).nextSequence "agg" [testEventAB]
      ∧ (fappendEvents (finit testRegPtr) "agg" [testEventAB, badEvent]).2
        = Except.error Err.marshalFailure :=
  claim_C9_batch_commit_best_effort (finit testRegPtr) "agg" [testEventAB] badEvent []
    (by decide) (by decide) rfl

/-! Service.Insert: projection atomicity and saga isolation. -/

/-- The sync-handler loop returns the first failing handler's error
(wrapped), after the handlers registered before it all ran
successfully. -/
lemma runEventHandlers_break (pre : List HandlerFn) (h : HandlerFn)
    (post : List HandlerFn) (event : DbEvent) (replay : Bool) (msg : String)
    (hpre : ∀ g ∈ pre, g event replay = .ok ())
    (hfail : h event replay = .error msg) :
    runEventHandlers (pre ++ h :: post) event replay
      = .error (Err.handlerFailed msg) := by
  induction pre with
  | nil =>
    simp only [List.nil_append, runEventHandlers, hfail]
  | cons g pt ih =>
    have hg : g event replay = .ok () := hpre g (List.mem_cons_self g pt)
    simp only [List.cons_append, runEventHandlers, hg]
    exact ih fun g2 hg2 => hpre g2 (List.mem_cons_of_mem g hg2)

/-- Claim C7: when a synchronous projection handler registered for the
payload's event type fails during `Insert` — after the handlers
registered before it ran, in registration order, against the row
written inside the still-open transaction — the whole append is rolled
back and the wrapped handler error is returned: the database state is
exactly what it was before the call (the event is absent from the log,
no saga handler ran, no SagaInstance row was created). -/
theorem claim_C7_sync_handler_rollback (cfg : ServiceCfg) (st : ServiceState)
    (aggregateID : String) (p : Payload) (pre : List HandlerFn) (h : HandlerFn)
    (post : List HandlerFn) (msg : String)
    (hm : p.marshalable = true)
    (hhs : handlersFor cfg p.eventType = pre ++ h :: post)
    (hpre : ∀ g ∈ pre, g (mkDbEvent st aggregateID p) false = .ok ())
    (hfail : h (mkDbEvent st aggregateID p) false = .error msg) :
    Insert cfg st aggregateID p = (st, Except.error (Err.handlerFailed msg)) := by
  unfold Insert
  rw [if_pos hm, hhs]
  dsimp only
  rw [runEventHandlers_break pre h post (mkDbEvent st aggregateID p) false msg hpre hfail]

/-- Witness for C7: a passing handler followed by a failing one on a
fresh service; the insert returns the failure and the state is
untouched. -/
theorem claim_C7_sync_handler_rollback_witness :
    Insert cfgC7 svcInit "x" pW = (svcInit, Except.error (Err.handlerFailed "boom")) :=
  claim_C7_sync_handler_rollback cfgC7 svcInit "x" pW [okFn] badFn [] "boom" rfl rfl
    (by intro g hg; rw [List.mem_singleton] at hg; subst hg; rfl) rfl

/-- Updating a saga row id that occurs nowhere in a list of rows leaves
the list unchanged. -/
lemma updateSaga_skips (id : Nat) (status : SagaStatus) (err : Option String) :
    ∀ rows : List SagaRow, (∀ r ∈ rows, r.sagaInstanceId ≠ id) →
      updateSaga rows id status err = rows := by
  intro rows
  induction rows with
  | nil => intro _; rfl
  | cons r rt ih =>
    intro hall
    have hr : r.sagaInstanceId ≠ id := hall r (List.mem_cons_self r rt)
    have ht := ih fun r2 hr2 => hall r2 (List.mem_cons_of_mem r hr2)
    simp only [updateSaga, List.map_cons, if_neg hr]
    simp only [updateSaga] at ht
    rw [ht]

/-- Updating the freshly appended saga row leaves all older rows (whose
ids differ from the fresh id) unchanged. -/
lemma updateSaga_append (olds : List SagaRow) (r0 : SagaRow) (id : Nat)
    (status : SagaStatus) (err : Option String)
    (holds : ∀ r ∈ olds, r.sagaInstanceId ≠ id) (hr0 : r0.sagaInstanceId = id) :
    updateSaga (olds ++ [r0]) id status err
      = olds ++ [{ r0 with status := status, lastError := err }] := by
  unfold updateSaga
  rw [List.map_append]
  have h1 := updateSaga_skips id status err olds holds
  simp only [updateSaga] at h1
  rw [h1]
  simp [hr0]

/-- Claim C8: with two saga handlers registered for a committed event's
type — A first and failing, B second and succeeding — `Insert` commits
the event, records A's SagaInstance with terminal status error carrying
A's message (the row was created with status running and updated after
A returned), still dispatches B and records B's SagaInstance as
completed, and returns success to the caller: a saga failure is never
propagated.  The hypothesis on existing saga ids is the autoincrement
invariant of the saga_instances table. -/
theorem claim_C8_saga_isolation (cfg : ServiceCfg) (st : ServiceState)
    (aggregateID : String) (p : Payload) (nameA nameB : String)
    (fa fb : HandlerFn) (msgA : String)
    (hm : p.marshalable = true)
    (hsync : runEventHandlers (handlersFor cfg p.eventType)
      (mkDbEvent st aggregateID p) false = .ok ())
    (hx : xhandlersFor cfg p.eventType = [⟨nameA, fa⟩, ⟨nameB, fb⟩])
    (hfa : fa (mkDbEvent st aggregateID p) false = .error msgA)
    (hfb : fb (mkDbEvent st aggregateID p) false = .ok ())
    (hsid : ∀ r ∈ st.sagas, r.sagaInstanceId < st.nextSagaId) :
    Insert cfg st aggregateID p =
      ({ events := st.events ++ [mkDbEvent st aggregateID p],
         sagas := st.sagas ++
           [⟨st.nextSagaId, st.nextEventId, nameA, SagaStatus.error, some msgA⟩,
            ⟨st.nextSagaId + 1, st.nextEventId, nameB, SagaStatus.completed, none⟩],
         nextEventId := st.nextEventId + 1,
         nextSagaId := st.nextSagaId + 2 }, Except.ok ()) := by
  unfold Insert
  rw [if_pos hm]
  dsimp only
  rw [hsync]
  dsimp only
  rw [hx]
  unfold xrunEventHandlers
  dsimp only
  rw [hfa]
  dsimp only
  rw [updateSaga_append st.sagas
    ⟨st.nextSagaId, (mkDbEvent st aggregateID p).eventId, nameA, SagaStatus.running, none⟩
    st.nextSagaId SagaStatus.error (some msgA)
    (fun r hr => Nat.ne_of_lt (hsid r hr)) rfl]
  unfold xrunEventHandlers
  dsimp only
  rw [hfb]
  dsimp only
  rw [show st.sagas ++
      [({ sagaInstanceId := st.nextSagaId,
          eventId := (mkDbEvent st aggregateID p).eventId, sagaName := nameA,
          status := SagaStatus.error, lastError := some msgA } : SagaRow)] ++
      [({ sagaInstanceId := st.nextSagaId + 1,
          eventId := (mkDbEvent st aggregateID p).eventId, sagaName := nameB,
          status := SagaStatus.running, lastError := none } : SagaRow)]
    = (st.sagas ++
      [({ sagaInstanceId := st.nextSagaId,
          eventId := (mkDbEvent st aggregateID p).eventId, sagaName := nameA,
          status := SagaStatus.error, lastError := some msgA } : SagaRow)]) ++
      [({ sagaInstanceId := st.nextSagaId + 1,
          eventId := (mkDbEvent st aggregateID p).eventId, sagaName := nameB,
          status := SagaStatus.running, lastError := none } : SagaRow)] from rfl]
  rw [updateSaga_append _
    ⟨st.nextSagaId + 1, (mkDbEvent st aggregateID p).eventId, nameB,
      SagaStatus.running, none⟩
    (st.nextSagaId + 1) SagaStatus.completed none ?holds rfl]
  case holds =>
    intro r hr
    rcases List.mem_append.mp hr with hr | hr
    · exact Nat.ne_of_lt (Nat.lt_succ_of_lt (hsid r hr))
    · rw [List.mem_singleton.mp hr]
      exact Nat.ne_of_lt (Nat.lt_succ_self _)
  unfold xrunEventHandlers
  simp [mkDbEvent, List.append_assoc]

/-- Witness for C8: a fresh service with saga A failing and saga B
succeeding on event type T. -/
theorem claim_C8_saga_isolation_witness :
    Insert cfgC8 svcInit "x" pW =
      ({ events := [⟨1, "x", "Agg", "T", Bytes.wellFormed ⟨[("a", 1)]⟩⟩],
         sagas := [⟨1, 1, "A", SagaStatus.error, some "boom"⟩,
                   ⟨2, 1, "B", SagaStatus.completed, none⟩],
         nextEventId := 2,
         nextSagaId := 3 }, Except.ok ()) :=
  claim_C8_saga_isolation cfgC8 svcInit "x" pW "A" "B" badFn okFn "boom"
    rfl rfl rfl rfl rfl (by intro r hr; exact absurd hr (List.not_mem_nil r))

/-- Claim C10: when the aggregate's decision logic succeeds but returns
no events, `AggregateHandler.Handle` hands the empty list straight to
the store's `Record`, which rejects it, so the call returns the
no-events error and the store is unchanged. -/
theorem claim_C10_empty_decision_fails {σ : Type} (h : AggregateHandlerM σ)
    (pubs : List Publisher) (store : SimpleStore) (cmd : Cmd)
    (hdec : h.handleCommand
        ((sLoadStream store cmd.aggregateID).foldl
          (fun a re => h.apply a re.event) (h.aggregateFactory cmd.aggregateID))
        cmd = .ok []) :
    Handle h pubs store cmd = (store, Except.error Err.noEvents) := by
  unfold Handle
  dsimp only
  rw [hdec]
  rfl

/-- Witness for C10: an aggregate whose decision logic returns an empty
list on a fresh store. -/
theorem claim_C10_empty_decision_fails_witness :
    Handle unitAgg [] sinit ⟨"agg"⟩ = (sinit, Except.error Err.noEvents) :=
  claim_C10_empty_decision_fails unitAgg [] sinit ⟨"agg"⟩ rfl

end Evoke
